import Mathlib

/-!
Verification of the credential and session management core of the
`0x03-user_authentication_service` repository (`auth.py`, `db.py`) against its
natural-language specification.

The embedding is shallow: the SQLAlchemy-backed user store (`db.py`) becomes a
list of `User` records, keyword-argument dictionaries become association lists
of (attribute-name, value) pairs, and Python exceptions become `Except` errors.
The nondeterministic external primitives (`bcrypt.gensalt`, `uuid4`) are
supplied as explicit arguments, so each operation is a pure function of the
store state and those inputs.
-/

/-- Modelled from the spec: the bcrypt library is external to the repository.
The spec (section 4.1) requires a salted one-way transform whose output embeds
the salt, and verification that recomputes using the embedded salt.  We model
the modular-crypt-format output as a byte (character) list
`tag ++ salt ++ separator ++ digest`, idealizing the Blowfish-derived digest as
an injective function of the password; real bcrypt salts are base64 and never
contain the `$` separator, which we model by filtering it out of the salt. -/
def bTag : List Char := ['$', '2', 'b', '$', '1', '2', '$']

/-- Modelled from the spec: the salt component embedded in a bcrypt digest
(base64 alphabet, hence free of the `$` separator). -/
def bsalt (salt : String) : List Char := salt.data.filter (fun c => c != '$')

/-- Modelled from the spec: `bcrypt.hashpw(password.encode(), salt)` — the
salted hash stored in `hashed_password` (`_hash_password` in `auth.py`). -/
def bhash (password salt : String) : List Char :=
  bTag ++ bsalt salt ++ '$' :: password.data

/-- Modelled from the spec: `bcrypt.checkpw(password.encode(), digest)` —
extracts the salt embedded in the digest (the bytes between the version tag
and the final separator) and recomputes the hash, comparing byte-for-byte. -/
def bcheck (password : String) (h : List Char) : Bool :=
  h == bhash password ⟨(h.drop 7).take ((h.drop 7).length - (password.length + 1))⟩

/-- Modelled from the spec: the `User` model (`user.py` is not under `src/`;
its five column attributes `id, email, hashed_password, session_id,
reset_token` are given by spec section 3 and are exactly the attributes
`auth.py` and `db.py` read and write). -/
structure User where
  id : Nat
  email : String
  hashed_password : List Char
  session_id : Option String
  reset_token : Option String
deriving DecidableEq

/-- Dynamic values passed through the keyword-argument interface of
`DB.find_user_by` / `DB.update_user`: Python ints, strings, bytes and `None`.
Equality between the constructors models Python `==` across these types
(values of different types compare unequal; `None == None` is true). -/
inductive Value where
  | nat (n : Nat)
  | str (s : String)
  | bytes (b : List Char)
  | null
deriving DecidableEq

/-- Conversion of an optional string column value to the dynamic value
returned by `getattr` (a Python `None` column reads back as `None`). -/
def optVal : Option String → Value
  | some t => Value.str t
  | none => Value.null

/-- Python `getattr(user, key)` for the five column attributes of `User`. -/
def getattrU (u : User) (k : String) : Value :=
  if k = "id" then Value.nat u.id
  else if k = "email" then Value.str u.email
  else if k = "hashed_password" then Value.bytes u.hashed_password
  else if k = "session_id" then optVal u.session_id
  else if k = "reset_token" then optVal u.reset_token
  else Value.null

/-- Python `setattr(user, key, value)` for the five column attributes.  A
value whose type does not match the column is modelled as a no-op (the service
never performs such a write). -/
def setattrU (u : User) (k : String) (v : Value) : User :=
  if k = "id" then (match v with | Value.nat n => { u with id := n } | _ => u)
  else if k = "email" then (match v with | Value.str s => { u with email := s } | _ => u)
  else if k = "hashed_password" then
    (match v with | Value.bytes b => { u with hashed_password := b } | _ => u)
  else if k = "session_id" then
    (match v with
      | Value.str s => { u with session_id := some s }
      | Value.null => { u with session_id := none }
      | _ => u)
  else if k = "reset_token" then
    (match v with
      | Value.str s => { u with reset_token := some s }
      | Value.null => { u with reset_token := none }
      | _ => u)
  else u

/-- The attribute names admitted by the membership test `key in User.__dict__`
of `DB.find_user_by` and the `hasattr(user, key)` test of `DB.update_user`:
the five column attributes of the `User` model. -/
def isUserAttr (k : String) : Bool :=
  k == "id" || k == "email" || k == "hashed_password" ||
  k == "session_id" || k == "reset_token"

/-- The persistent store: the single `users` table, in insertion (rowid)
order, as queried by `self._session.query(User)`. -/
structure DBState where
  users : List User
deriving DecidableEq

/-- Errors raised by the `DB` layer: `NoResultFound`, `InvalidRequestError`
(invalid attribute in `find_user_by`) and `ValueError` (invalid attribute in
`update_user`). -/
inductive DBError where
  | noResult
  | invalidRequest
  | valueError
deriving DecidableEq

/-- First user of the table whose attribute `k` compares equal to `v`
(the inner loop of `DB.find_user_by`). -/
def findMatch (users : List User) (k : String) (v : Value) : Option User :=
  users.find? (fun u => getattrU u k == v)

/-- `DB.find_user_by(**kwargs)`: iterates over the keyword arguments in
order; an attribute name outside the `User` model raises
`InvalidRequestError`; otherwise the first user matching the current
attribute is returned; if no argument produced a match, `NoResultFound`. -/
def find_user_by (s : DBState) : List (String × Value) → Except DBError User
  | [] => Except.error DBError.noResult
  | (k, v) :: rest =>
    if isUserAttr k then
      match findMatch s.users k v with
      | some u => Except.ok u
      | none => find_user_by s rest
    else Except.error DBError.invalidRequest

/-- The id the store assigns to a newly inserted row (SQLite integer primary
key: one more than the largest existing id). -/
def nextId (s : DBState) : Nat := (s.users.map User.id).foldr max 0 + 1

/-- `DB.add_user(email, hashed_password)`: inserts a row with null
`session_id` and `reset_token` and returns it. -/
def add_user (s : DBState) (email : String) (hp : List Char) : User × DBState :=
  let u : User := ⟨nextId s, email, hp, none, none⟩
  (u, ⟨s.users ++ [u]⟩)

/-- The update loop of `DB.update_user`: applies `setattr` for each keyword
argument in order, raising `ValueError` at the first attribute name the
`User` model does not have. -/
def applyKwargs (u : User) : List (String × Value) → Except DBError User
  | [] => Except.ok u
  | (k, v) :: rest =>
    if isUserAttr k then applyKwargs (setattrU u k v) rest
    else Except.error DBError.valueError

/-- Replace the first user with the given id (the object `find_user_by`
returned and `setattr` mutated) by the updated record. -/
def updateFirst : List User → Nat → User → List User
  | [], _, _ => []
  | w :: rest, i, u' => if w.id = i then u' :: rest else w :: updateFirst rest i u'

/-- `DB.update_user(user_id, **kwargs)`: finds the user by id
(`NoResultFound` propagates if absent — the `try` in the source is dead
code), then applies the keyword arguments, raising `ValueError` on an
attribute the `User` model lacks, and commits. -/
def update_user (s : DBState) (uid : Nat) (kwargs : List (String × Value)) :
    Except DBError DBState :=
  match find_user_by s [("id", Value.nat uid)] with
  | Except.error e => Except.error e
  | Except.ok u =>
    match applyKwargs u kwargs with
    | Except.error e => Except.error e
    | Except.ok u' => Except.ok ⟨updateFirst s.users uid u'⟩

/-- Errors raised by the `Auth` layer of `auth.py`: the `ValueError` of
`register_user` carrying the duplicate email, the `ValueError("User not
found")` of `get_reset_password_token` and `update_password` (the spec's
`NotFound`), and propagated `DB`-layer errors (never produced on the paths
the service actually takes, but kept for fidelity: `auth.py` catches only
`NoResultFound`). -/
inductive AuthError where
  | alreadyExists (email : String)
  | notFound
  | dbError (e : DBError)
deriving DecidableEq

/-- `Auth.register_user(email, password)`: if `find_user_by(email=email)`
succeeds the duplicate is rejected; on `NoResultFound` the password is
hashed (`salt` models the fresh `bcrypt.gensalt()`) and the user inserted. -/
def register_user (s : DBState) (email password salt : String) :
    Except AuthError (User × DBState) :=
  match find_user_by s [("email", Value.str email)] with
  | Except.ok _ => Except.error (AuthError.alreadyExists email)
  | Except.error DBError.noResult =>
      Except.ok (add_user s email (bhash password salt))
  | Except.error e => Except.error (AuthError.dbError e)

/-- `Auth.valid_login(email, password)`: false when the email lookup raises
`NoResultFound` (the only error the key `"email"` can produce), otherwise
`bcrypt.checkpw` of the supplied password against the stored hash. -/
def valid_login (s : DBState) (email password : String) : Bool :=
  match find_user_by s [("email", Value.str email)] with
  | Except.ok u => bcheck password u.hashed_password
  | Except.error _ => false

/-- `Auth.create_session(email)`: `None` when the email is unknown; otherwise
writes a generated session id (`token` models `_generate_uuid()`) to the
user's `session_id` via `update_user` and returns it. -/
def create_session (s : DBState) (email token : String) :
    Except AuthError (Option String × DBState) :=
  match find_user_by s [("email", Value.str email)] with
  | Except.error DBError.noResult => Except.ok (none, s)
  | Except.error e => Except.error (AuthError.dbError e)
  | Except.ok u =>
    match update_user s u.id [("session_id", Value.str token)] with
    | Except.error e => Except.error (AuthError.dbError e)
    | Except.ok s' => Except.ok (some token, s')

/-- `Auth.get_user_from_session_id(session_id)`: `None` immediately when the
argument is `None` (and only then — an empty string is looked up like any
other value); otherwise the `session_id` lookup, with `NoResultFound`
swallowed to `None`. -/
def get_user_from_session_id (s : DBState) (session_id : Option String) :
    Except AuthError (Option User) :=
  match session_id with
  | none => Except.ok none
  | some sid =>
    match find_user_by s [("session_id", Value.str sid)] with
    | Except.ok u => Except.ok (some u)
    | Except.error DBError.noResult => Except.ok none
    | Except.error e => Except.error (AuthError.dbError e)

/-- `Auth.destroy_session(user_id)`: looks the user up by id and clears
`session_id` to `None`; `NoResultFound` anywhere in the body is swallowed
(silent no-op). -/
def destroy_session (s : DBState) (user_id : Nat) : Except AuthError DBState :=
  match find_user_by s [("id", Value.nat user_id)] with
  | Except.error DBError.noResult => Except.ok s
  | Except.error e => Except.error (AuthError.dbError e)
  | Except.ok u =>
    match update_user s u.id [("session_id", Value.null)] with
    | Except.error DBError.noResult => Except.ok s
    | Except.error e => Except.error (AuthError.dbError e)
    | Except.ok s' => Except.ok s'

/-- `Auth.get_reset_password_token(email)`: raises `ValueError("User not
found")` when the email is unknown, otherwise persists a generated reset
token (`token` models `_generate_uuid()`) and returns it. -/
def get_reset_password_token (s : DBState) (email token : String) :
    Except AuthError (String × DBState) :=
  match find_user_by s [("email", Value.str email)] with
  | Except.error DBError.noResult => Except.error AuthError.notFound
  | Except.error e => Except.error (AuthError.dbError e)
  | Except.ok u =>
    match update_user s u.id [("reset_token", Value.str token)] with
    | Except.error e => Except.error (AuthError.dbError e)
    | Except.ok s' => Except.ok (token, s')

/-- `Auth.update_password(reset_token, password)`: raises `ValueError("User
not found")` when the `reset_token` lookup finds no user, otherwise a single
combined update replacing `hashed_password` with the fresh salted hash and
clearing `reset_token` to `None`.  The argument is an `Option` because the
Python caller can pass `None` for `reset_token`. -/
def update_password (s : DBState) (reset_token : Option String)
    (password salt : String) : Except AuthError DBState :=
  match find_user_by s [("reset_token", optVal reset_token)] with
  | Except.error DBError.noResult => Except.error AuthError.notFound
  | Except.error e => Except.error (AuthError.dbError e)
  | Except.ok u =>
    match update_user s u.id
        [("hashed_password", Value.bytes (bhash password salt)),
         ("reset_token", Value.null)] with
    | Except.error e => Except.error (AuthError.dbError e)
    | Except.ok s' => Except.ok s'

/-- The store states reachable through the service, starting from the empty
table `DB.__init__` creates (it drops and recreates all tables) and closed
under the five mutating operations of `Auth`.  The salt and token arguments
range over all strings, over-approximating the nondeterminism of
`bcrypt.gensalt()` and `uuid4()`. -/
inductive Reachable : DBState → Prop where
  | init : Reachable ⟨[]⟩
  | register (s : DBState) (e p salt : String) (u : User) (s' : DBState) :
      Reachable s → register_user s e p salt = Except.ok (u, s') → Reachable s'
  | session (s : DBState) (e t : String) (r : Option String) (s' : DBState) :
      Reachable s → create_session s e t = Except.ok (r, s') → Reachable s'
  | destroy (s : DBState) (i : Nat) (s' : DBState) :
      Reachable s → destroy_session s i = Except.ok s' → Reachable s'
  | reset (s : DBState) (e t tok : String) (s' : DBState) :
      Reachable s → get_reset_password_token s e t = Except.ok (tok, s') →
      Reachable s'
  | updatepw (s : DBState) (rt : Option String) (p salt : String) (s' : DBState) :
      Reachable s → update_password s rt p salt = Except.ok s' → Reachable s'

/-! Helper lemmas about the bcrypt model. -/

theorem strData_inj {p q : String} (h : p.data = q.data) : p = q := by
  cases p; cases q; cases h; rfl

theorem bsalt_no_sep (salt : String) : ∀ c ∈ bsalt salt, (c != '$') = true := by
  intro c hc
  exact (List.mem_filter.mp hc).2

theorem bsalt_filter_self (l : List Char) (h : ∀ c ∈ l, (c != '$') = true) :
    l.filter (fun c => c != '$') = l :=
  List.filter_eq_self.mpr h

theorem takeWhile_no_sep (l r : List Char) (h : ∀ c ∈ l, (c != '$') = true) :
    (l ++ '$' :: r).takeWhile (fun c => c != '$') = l := by
  induction l with
  | nil => simp [List.takeWhile_cons]
  | cons a l ih =>
    have ha : (a != '$') = true := h a (List.mem_cons_self a l)
    have hl : ∀ c ∈ l, (c != '$') = true := fun c hc => h c (List.mem_cons_of_mem a hc)
    simp [List.takeWhile_cons, ha, ih hl]

theorem bhash_drop_seven (p salt : String) :
    (bhash p salt).drop 7 = bsalt salt ++ '$' :: p.data := by
  have h7 : (7 : Nat) = bTag.length := rfl
  rw [bhash, List.append_assoc, h7, List.drop_left]

/-- Soundness and completeness of the modelled `bcrypt.checkpw` against the
modelled `bcrypt.hashpw`: verification succeeds exactly for the hashed
password, whatever salt was used. -/
theorem bcheck_bhash (p' p salt : String) :
    bcheck p' (bhash p salt) = (p' == p) := by
  by_cases hpp : p' = p
  · subst hpp
    have hlen : ((bhash p' salt).drop 7).length - (p'.length + 1) =
        (bsalt salt).length := by
      rw [bhash_drop_seven]
      simp [List.length_append]
    have htake : ((bhash p' salt).drop 7).take ((bsalt salt).length) = bsalt salt := by
      rw [bhash_drop_seven, List.take_left]
    have hfil : (bsalt salt).filter (fun c => c != '$') = bsalt salt :=
      bsalt_filter_self _ (bsalt_no_sep salt)
    have hre : bhash p' ⟨bsalt salt⟩ = bhash p' salt := by
      show bTag ++ (bsalt salt).filter (fun c => c != '$') ++ '$' :: p'.data =
        bhash p' salt
      rw [hfil]; rfl
    rw [bcheck, hlen, htake, hre]
    simp
  · have hne : (p' == p) = false := by
      simp [hpp]
    rw [hne]
    rw [bcheck]
    refine beq_eq_false_iff_ne.mpr ?_
    intro heq
    apply hpp
    have heq' : bsalt salt ++ '$' :: p.data =
        (bsalt ⟨((bhash p salt).drop 7).take
          (((bhash p salt).drop 7).length - (p'.length + 1))⟩) ++ '$' :: p'.data := by
      have h1 : bTag ++ (bsalt salt ++ '$' :: p.data) =
          bTag ++ ((bsalt ⟨((bhash p salt).drop 7).take
            (((bhash p salt).drop 7).length - (p'.length + 1))⟩) ++ '$' :: p'.data) := by
        rw [← List.append_assoc, ← List.append_assoc]
        exact heq
      exact List.append_cancel_left h1
    have hF : ∀ c ∈ bsalt ⟨((bhash p salt).drop 7).take
        (((bhash p salt).drop 7).length - (p'.length + 1))⟩, (c != '$') = true :=
      bsalt_no_sep _
    have hS : ∀ c ∈ bsalt salt, (c != '$') = true := bsalt_no_sep salt
    have htw := congrArg (List.takeWhile (fun c => c != '$')) heq'
    rw [takeWhile_no_sep _ _ hS, takeWhile_no_sep _ _ hF] at htw
    rw [← htw] at heq'
    have hcons := List.append_cancel_left heq'
    have hdata : p.data = p'.data := by
      injection hcons
    exact (strData_inj hdata).symm

/-- The modelled bcrypt digest is never the empty byte sequence. -/
theorem bhash_ne_nil (p salt : String) : bhash p salt ≠ [] := by
  simp [bhash, bTag]

/-- The modelled bcrypt digest is never the plaintext password it hashes:
it is strictly longer (the version tag and salt are prepended). -/
theorem bhash_ne_plain (p salt : String) : bhash p salt ≠ p.data := by
  intro h
  have := congrArg List.length h
  simp [bhash, bTag, List.length_append] at this
  omega

/-! Helper lemmas about the store model. -/

@[simp] theorem getattr_id (u : User) : getattrU u "id" = Value.nat u.id := rfl

@[simp] theorem getattr_email (u : User) : getattrU u "email" = Value.str u.email := rfl

@[simp] theorem getattr_hp (u : User) :
    getattrU u "hashed_password" = Value.bytes u.hashed_password := rfl

@[simp] theorem getattr_session (u : User) :
    getattrU u "session_id" = optVal u.session_id := rfl

@[simp] theorem getattr_reset (u : User) :
    getattrU u "reset_token" = optVal u.reset_token := rfl

@[simp] theorem optVal_eq_str (o : Option String) (t : String) :
    optVal o = Value.str t ↔ o = some t := by
  cases o <;> simp [optVal]

@[simp] theorem optVal_eq_null (o : Option String) :
    optVal o = Value.null ↔ o = none := by
  cases o <;> simp [optVal]

theorem findMatch_middle (pre post : List User) (u : User) (k : String) (v : Value)
    (hpre : ∀ w ∈ pre, getattrU w k ≠ v) (hu : getattrU u k = v) :
    findMatch (pre ++ u :: post) k v = some u := by
  induction pre with
  | nil => simp [findMatch, List.find?_cons_of_pos, hu]
  | cons w pre ih =>
    have hw : (getattrU w k == v) = false := by
      simp [hpre w (List.mem_cons_self w pre)]
    have hrest : ∀ x ∈ pre, getattrU x k ≠ v := fun x hx =>
      hpre x (List.mem_cons_of_mem w hx)
    simpa [findMatch, List.find?_cons_of_neg, hw] using ih hrest

theorem findMatch_none (users : List User) (k : String) (v : Value)
    (h : ∀ w ∈ users, getattrU w k ≠ v) : findMatch users k v = none := by
  refine List.find?_eq_none.mpr ?_
  intro w hw
  simp [h w hw]

theorem find_user_by_single_ok (s : DBState) (k : String) (v : Value) (u : User)
    (hk : isUserAttr k = true) (hfind : findMatch s.users k v = some u) :
    find_user_by s [(k, v)] = Except.ok u := by
  simp [find_user_by, hk, hfind]

theorem find_user_by_single_none (s : DBState) (k : String) (v : Value)
    (hk : isUserAttr k = true) (hfind : findMatch s.users k v = none) :
    find_user_by s [(k, v)] = Except.error DBError.noResult := by
  simp [find_user_by, hk, hfind]

theorem updateFirst_middle (pre post : List User) (u u' : User) (i : Nat)
    (hpre : ∀ w ∈ pre, w.id ≠ i) (hu : u.id = i) :
    updateFirst (pre ++ u :: post) i u' = pre ++ u' :: post := by
  induction pre with
  | nil => simp [updateFirst, hu]
  | cons w pre ih =>
    have hw : w.id ≠ i := hpre w (List.mem_cons_self w pre)
    have hrest : ∀ x ∈ pre, x.id ≠ i := fun x hx => hpre x (List.mem_cons_of_mem w hx)
    simp [updateFirst, hw, ih hrest]

theorem update_user_ok (pre post : List User) (u u' : User)
    (kw : List (String × Value)) (hpre : ∀ w ∈ pre, w.id ≠ u.id)
    (hap : applyKwargs u kw = Except.ok u') :
    update_user ⟨pre ++ u :: post⟩ u.id kw = Except.ok ⟨pre ++ u' :: post⟩ := by
  have hfm : findMatch (pre ++ u :: post) "id" (Value.nat u.id) = some u := by
    refine findMatch_middle pre post u "id" (Value.nat u.id) ?_ rfl
    intro w hw
    simp [hpre w hw]
  have hfind : find_user_by ⟨pre ++ u :: post⟩ [("id", Value.nat u.id)] =
      Except.ok u :=
    find_user_by_single_ok _ _ _ _ rfl hfm
  have hupd : updateFirst (pre ++ u :: post) u.id u' = pre ++ u' :: post :=
    updateFirst_middle pre post u u' u.id hpre rfl
  simp [update_user, hfind, hap, hupd]

/-- C2: for every valid email and password, `register(email, password)` on a
store with no user for that email, followed immediately by
`validLogin(email, password)`, returns true: the stored bcrypt hash verifies
against the registered password. -/
theorem register_then_valid_login (s : DBState) (e p salt : String)
    (hfresh : ∀ w ∈ s.users, w.email ≠ e) :
    ∃ u s', register_user s e p salt = Except.ok (u, s') ∧
      valid_login s' e p = true := by
  have hfm : findMatch s.users "email" (Value.str e) = none := by
    refine findMatch_none _ _ _ ?_
    intro w hw
    simp [hfresh w hw]
  have hfind : find_user_by s [("email", Value.str e)] =
      Except.error DBError.noResult :=
    find_user_by_single_none _ _ _ rfl hfm
  refine ⟨⟨nextId s, e, bhash p salt, none, none⟩,
    ⟨s.users ++ [⟨nextId s, e, bhash p salt, none, none⟩]⟩, ?_, ?_⟩
  · simp [register_user, hfind, add_user]
  · have hfm2 : findMatch (s.users ++ [⟨nextId s, e, bhash p salt, none, none⟩])
        "email" (Value.str e) =
        some ⟨nextId s, e, bhash p salt, none, none⟩ := by
      refine findMatch_middle s.users [] _ "email" (Value.str e) ?_ rfl
      intro w hw
      simp [hfresh w hw]
    have hfind2 : find_user_by ⟨s.users ++ [⟨nextId s, e, bhash p salt, none, none⟩]⟩
        [("email", Value.str e)] =
        Except.ok ⟨nextId s, e, bhash p salt, none, none⟩ :=
      find_user_by_single_ok _ _ _ _ rfl hfm2
    simp [valid_login, hfind2, bcheck_bhash]

/-- Witness for C2 at a concrete input: registering on the empty store. -/
theorem register_then_valid_login_witness :
    ∃ u s', register_user ⟨[]⟩ "a@x.io" "pw1" "saltA" = Except.ok (u, s') ∧
      valid_login s' "a@x.io" "pw1" = true :=
  register_then_valid_login ⟨[]⟩ "a@x.io" "pw1" "saltA" (by simp)

/-- C5: registering an email that is already registered fails with
`AlreadyExists` (the `ValueError` of `register_user`), and the failed call
leaves the store unchanged, so the credential stored by the first
registration still verifies. -/
theorem duplicate_register_rejected (s : DBState) (e p₁ p₂ salt₁ salt₂ : String)
    (hfresh : ∀ w ∈ s.users, w.email ≠ e) :
    ∃ u₁ s₁, register_user s e p₁ salt₁ = Except.ok (u₁, s₁) ∧
      register_user s₁ e p₂ salt₂ = Except.error (AuthError.alreadyExists e) ∧
      valid_login s₁ e p₁ = true := by
  have hfm : findMatch s.users "email" (Value.str e) = none := by
    refine findMatch_none _ _ _ ?_
    intro w hw
    simp [hfresh w hw]
  have hfind : find_user_by s [("email", Value.str e)] =
      Except.error DBError.noResult :=
    find_user_by_single_none _ _ _ rfl hfm
  have hfm2 : findMatch (s.users ++ [⟨nextId s, e, bhash p₁ salt₁, none, none⟩])
      "email" (Value.str e) = some ⟨nextId s, e, bhash p₁ salt₁, none, none⟩ := by
    refine findMatch_middle s.users [] _ "email" (Value.str e) ?_ rfl
    intro w hw
    simp [hfresh w hw]
  have hfind2 : find_user_by ⟨s.users ++ [⟨nextId s, e, bhash p₁ salt₁, none, none⟩]⟩
      [("email", Value.str e)] =
      Except.ok ⟨nextId s, e, bhash p₁ salt₁, none, none⟩ :=
    find_user_by_single_ok _ _ _ _ rfl hfm2
  refine ⟨⟨nextId s, e, bhash p₁ salt₁, none, none⟩,
    ⟨s.users ++ [⟨nextId s, e, bhash p₁ salt₁, none, none⟩]⟩, ?_, ?_, ?_⟩
  · simp [register_user, hfind, add_user]
  · simp [register_user, hfind2]
  · simp [valid_login, hfind2, bcheck_bhash]

/-- Witness for C5 at a concrete input. -/
theorem duplicate_register_rejected_witness :
    ∃ u₁ s₁, register_user ⟨[]⟩ "a@x.io" "pw1" "saltA" = Except.ok (u₁, s₁) ∧
      register_user s₁ "a@x.io" "pw2" "saltB" =
        Except.error (AuthError.alreadyExists "a@x.io") ∧
      valid_login s₁ "a@x.io" "pw1" = true :=
  duplicate_register_rejected ⟨[]⟩ "a@x.io" "pw1" "pw2" "saltA" "saltB" (by simp)

/-- C4: `createSession(email)` for a registered user yields a token `t` whose
lookup returns that user (its record now carrying the session token);
`createSession` for an unknown email returns null and leaves the store
untouched; `getUserFromSession` of a token that is no user's `session_id`
returns null. -/
theorem session_roundtrip :
    (∀ (pre post : List User) (u : User) (t : String),
      (∀ w ∈ pre, w.email ≠ u.email) →
      (∀ w ∈ pre, w.id ≠ u.id) →
      (∀ w ∈ pre ++ u :: post, w.session_id ≠ some t) →
      create_session ⟨pre ++ u :: post⟩ u.email t =
        Except.ok (some t, ⟨pre ++ { u with session_id := some t } :: post⟩) ∧
      get_user_from_session_id ⟨pre ++ { u with session_id := some t } :: post⟩
        (some t) = Except.ok (some { u with session_id := some t })) ∧
    (∀ (s : DBState) (e t : String), (∀ w ∈ s.users, w.email ≠ e) →
      create_session s e t = Except.ok (none, s)) ∧
    (∀ (s : DBState) (t : String), (∀ w ∈ s.users, w.session_id ≠ some t) →
      get_user_from_session_id s (some t) = Except.ok none) := by
  refine ⟨?_, ?_, ?_⟩
  · intro pre post u t hpre_e hpre_id hfresh
    have hfm : findMatch (pre ++ u :: post) "email" (Value.str u.email) = some u := by
      refine findMatch_middle pre post u "email" (Value.str u.email) ?_ rfl
      intro w hw
      simp [hpre_e w hw]
    have hfind : find_user_by ⟨pre ++ u :: post⟩ [("email", Value.str u.email)] =
        Except.ok u :=
      find_user_by_single_ok _ _ _ _ rfl hfm
    have hupd : update_user ⟨pre ++ u :: post⟩ u.id [("session_id", Value.str t)] =
        Except.ok ⟨pre ++ { u with session_id := some t } :: post⟩ :=
      update_user_ok pre post u { u with session_id := some t } _ hpre_id rfl
    constructor
    · simp [create_session, hfind, hupd]
    · have hfm2 : findMatch (pre ++ { u with session_id := some t } :: post)
          "session_id" (Value.str t) = some { u with session_id := some t } := by
        refine findMatch_middle pre post _ "session_id" (Value.str t) ?_ rfl
        intro w hw
        have : w.session_id ≠ some t := hfresh w (List.mem_append_left _ hw)
        simp [this]
      have hfind2 : find_user_by ⟨pre ++ { u with session_id := some t } :: post⟩
          [("session_id", Value.str t)] =
          Except.ok { u with session_id := some t } :=
        find_user_by_single_ok _ _ _ _ rfl hfm2
      simp [get_user_from_session_id, hfind2]
  · intro s e t hfresh
    have hfm : findMatch s.users "email" (Value.str e) = none := by
      refine findMatch_none _ _ _ ?_
      intro w hw
      simp [hfresh w hw]
    have hfind : find_user_by s [("email", Value.str e)] =
        Except.error DBError.noResult :=
      find_user_by_single_none _ _ _ rfl hfm
    simp [create_session, hfind]
  · intro s t hfresh
    have hfm : findMatch s.users "session_id" (Value.str t) = none := by
      refine findMatch_none _ _ _ ?_
      intro w hw
      simp [hfresh w hw]
    have hfind : find_user_by s [("session_id", Value.str t)] =
        Except.error DBError.noResult :=
      find_user_by_single_none _ _ _ rfl hfm
    simp [get_user_from_session_id, hfind]

/-- Witness for C4 at concrete inputs. -/
theorem session_roundtrip_witness :
    (create_session ⟨[⟨1, "a@x.io", ['h'], none, none⟩]⟩ "a@x.io" "tok1" =
      Except.ok (some "tok1", ⟨[⟨1, "a@x.io", ['h'], some "tok1", none⟩]⟩) ∧
     get_user_from_session_id ⟨[⟨1, "a@x.io", ['h'], some "tok1", none⟩]⟩
       (some "tok1") = Except.ok (some ⟨1, "a@x.io", ['h'], some "tok1", none⟩)) ∧
    create_session ⟨[]⟩ "b@x.io" "tok2" = Except.ok (none, ⟨[]⟩) ∧
    get_user_from_session_id ⟨[]⟩ (some "zz") = Except.ok none :=
  ⟨session_roundtrip.1 [] [] ⟨1, "a@x.io", ['h'], none, none⟩ "tok1"
      (by simp) (by simp) (by simp),
   session_roundtrip.2.1 ⟨[]⟩ "b@x.io" "tok2" (by simp),
   session_roundtrip.2.2 ⟨[]⟩ "zz" (by simp)⟩

/-- C8: `destroySession(userId)` for an existing user clears its
`session_id`, after which the token issued before destruction no longer
resolves; for an unknown id the call is a silent no-op returning the store
unchanged. -/
theorem destroy_session_contract :
    (∀ (pre post : List User) (u : User) (t : String),
      (∀ w ∈ pre, w.id ≠ u.id) →
      u.session_id = some t →
      (∀ w ∈ pre, w.session_id ≠ some t) →
      (∀ w ∈ post, w.session_id ≠ some t) →
      destroy_session ⟨pre ++ u :: post⟩ u.id =
        Except.ok ⟨pre ++ { u with session_id := none } :: post⟩ ∧
      get_user_from_session_id ⟨pre ++ { u with session_id := none } :: post⟩
        (some t) = Except.ok none) ∧
    (∀ (s : DBState) (i : Nat), (∀ w ∈ s.users, w.id ≠ i) →
      destroy_session s i = Except.ok s) := by
  constructor
  · intro pre post u t hpre_id hu hpre_t hpost_t
    have hfm : findMatch (pre ++ u :: post) "id" (Value.nat u.id) = some u := by
      refine findMatch_middle pre post u "id" (Value.nat u.id) ?_ rfl
      intro w hw
      simp [hpre_id w hw]
    have hfind : find_user_by ⟨pre ++ u :: post⟩ [("id", Value.nat u.id)] =
        Except.ok u :=
      find_user_by_single_ok _ _ _ _ rfl hfm
    have hupd : update_user ⟨pre ++ u :: post⟩ u.id [("session_id", Value.null)] =
        Except.ok ⟨pre ++ { u with session_id := none } :: post⟩ :=
      update_user_ok pre post u { u with session_id := none } _ hpre_id rfl
    constructor
    · simp [destroy_session, hfind, hupd]
    · have hfm2 : findMatch (pre ++ { u with session_id := none } :: post)
          "session_id" (Value.str t) = none := by
        refine findMatch_none _ _ _ ?_
        intro w hw
        rcases List.mem_append.mp hw with hl | hr
        · simp [hpre_t w hl]
        · rcases List.mem_cons.mp hr with rfl | hm
          · simp
          · simp [hpost_t w hm]
      have hfind2 : find_user_by ⟨pre ++ { u with session_id := none } :: post⟩
          [("session_id", Value.str t)] = Except.error DBError.noResult :=
        find_user_by_single_none _ _ _ rfl hfm2
      simp [get_user_from_session_id, hfind2]
  · intro s i hids
    have hfm : findMatch s.users "id" (Value.nat i) = none := by
      refine findMatch_none _ _ _ ?_
      intro w hw
      simp [hids w hw]
    have hfind : find_user_by s [("id", Value.nat i)] =
        Except.error DBError.noResult :=
      find_user_by_single_none _ _ _ rfl hfm
    simp [destroy_session, hfind]

/-- Witness for C8 at concrete inputs. -/
theorem destroy_session_contract_witness :
    (destroy_session ⟨[⟨1, "a@x.io", ['h'], some "tok1", none⟩]⟩ 1 =
      Except.ok ⟨[⟨1, "a@x.io", ['h'], none, none⟩]⟩ ∧
     get_user_from_session_id ⟨[⟨1, "a@x.io", ['h'], none, none⟩]⟩ (some "tok1") =
      Except.ok none) ∧
    destroy_session ⟨[]⟩ 42 = Except.ok ⟨[]⟩ :=
  ⟨destroy_session_contract.1 [] [] ⟨1, "a@x.io", ['h'], some "tok1", none⟩ "tok1"
      (by simp) rfl (by simp) (by simp),
   destroy_session_contract.2 ⟨[]⟩ 42 (by simp)⟩

/-- C9 (amended): `getUserFromSession` returns null immediately only when the
session id is the Python `None`; an empty-string session id is looked up in
the store like any other value; any session id whose lookup finds no user
yields null rather than a propagated error. -/
theorem session_lookup_null_handling :
    (∀ s : DBState, get_user_from_session_id s none = Except.ok none) ∧
    (∀ (s : DBState) (sid : String), (∀ w ∈ s.users, w.session_id ≠ some sid) →
      get_user_from_session_id s (some sid) = Except.ok none) := by
  constructor
  · intro s
    rfl
  · intro s sid hfresh
    have hfm : findMatch s.users "session_id" (Value.str sid) = none := by
      refine findMatch_none _ _ _ ?_
      intro w hw
      simp [hfresh w hw]
    have hfind : find_user_by s [("session_id", Value.str sid)] =
        Except.error DBError.noResult :=
      find_user_by_single_none _ _ _ rfl hfm
    simp [get_user_from_session_id, hfind]

/-- Witness for C9 at concrete inputs. -/
theorem session_lookup_null_handling_witness :
    get_user_from_session_id ⟨[]⟩ none = Except.ok none ∧
    get_user_from_session_id ⟨[]⟩ (some "zzz") = Except.ok none :=
  ⟨session_lookup_null_handling.1 ⟨[]⟩,
   session_lookup_null_handling.2 ⟨[]⟩ "zzz" (by simp)⟩

/-- Counterexample to C9 as stated: the guard of
`get_user_from_session_id` tests only `session_id is None`, so an
empty-string session id does reach the store — in a store holding a user
whose `session_id` is the empty string, the call returns that user, not
null. -/
theorem empty_session_lookup_cex :
    ¬ (get_user_from_session_id ⟨[⟨1, "a@x.io", ['h'], some "", none⟩]⟩ (some "") =
      Except.ok none) := by
  intro h
  have h' : (Except.ok (some (⟨1, "a@x.io", ['h'], some "", none⟩ : User)) :
      Except AuthError (Option User)) = Except.ok none := h
  simp at h'

/-- C3: calling `updatePassword` with a null reset token on a store holding a
user whose `reset_token` is null does not fail with `NotFound`: the
`reset_token=None` lookup matches the first such user and the call overwrites
that user's password hash. -/
theorem update_password_null_token_matches (pre post : List User) (u : User)
    (p salt : String)
    (hpre_r : ∀ w ∈ pre, w.reset_token ≠ none)
    (hu : u.reset_token = none)
    (hpre_id : ∀ w ∈ pre, w.id ≠ u.id) :
    update_password ⟨pre ++ u :: post⟩ none p salt =
      Except.ok ⟨pre ++
        { u with hashed_password := bhash p salt, reset_token := none } :: post⟩ := by
  have hfm : findMatch (pre ++ u :: post) "reset_token" Value.null = some u := by
    refine findMatch_middle pre post u "reset_token" Value.null ?_ ?_
    · intro w hw
      simp [hpre_r w hw]
    · simp [hu]
  have hfind : find_user_by ⟨pre ++ u :: post⟩ [("reset_token", Value.null)] =
      Except.ok u :=
    find_user_by_single_ok _ _ _ _ rfl hfm
  have hupd : update_user ⟨pre ++ u :: post⟩ u.id
      [("hashed_password", Value.bytes (bhash p salt)), ("reset_token", Value.null)] =
      Except.ok ⟨pre ++
        { u with hashed_password := bhash p salt, reset_token := none } :: post⟩ :=
    update_user_ok pre post u
      { u with hashed_password := bhash p salt, reset_token := none } _ hpre_id rfl
  simp [update_password, optVal, hfind, hupd]

/-- Witness for C3 at a concrete input: a freshly registered user who never
requested a reset gets its password overwritten by `updatePassword(None, p)`. -/
theorem update_password_null_token_matches_witness :
    update_password ⟨[⟨1, "a@x.io", bhash "pw1" "saltA", none, none⟩]⟩ none
      "evil" "saltB" =
      Except.ok ⟨[⟨1, "a@x.io", bhash "evil" "saltB", none, none⟩]⟩ :=
  update_password_null_token_matches [] [] ⟨1, "a@x.io", bhash "pw1" "saltA", none, none⟩
    "evil" "saltB" (by simp) rfl (by simp)

/-- C1: for a registered user, `getResetToken` yields a token `r`;
`updatePassword(r, newPw)` succeeds and performs the single combined update
(new hash stored, `reset_token` cleared to null); afterwards login with the
new password succeeds, login with the old password fails, and a second
`updatePassword(r, _)` fails with `NotFound` — the token is single-use. -/
theorem password_reset_single_use (pre post : List User) (u : User)
    (oldPw newPw r salt₀ salt₂ : String)
    (hpre_e : ∀ w ∈ pre, w.email ≠ u.email)
    (hpre_id : ∀ w ∈ pre, w.id ≠ u.id)
    (hold : u.hashed_password = bhash oldPw salt₀)
    (hfresh : ∀ w ∈ pre ++ u :: post, w.reset_token ≠ some r)
    (hne : oldPw ≠ newPw) :
    ∃ s₂ : DBState,
      valid_login ⟨pre ++ u :: post⟩ u.email oldPw = true ∧
      get_reset_password_token ⟨pre ++ u :: post⟩ u.email r =
        Except.ok (r, ⟨pre ++ { u with reset_token := some r } :: post⟩) ∧
      update_password ⟨pre ++ { u with reset_token := some r } :: post⟩ (some r)
        newPw salt₂ = Except.ok s₂ ∧
      s₂ = ⟨pre ++
        { u with hashed_password := bhash newPw salt₂, reset_token := none } :: post⟩ ∧
      valid_login s₂ u.email newPw = true ∧
      valid_login s₂ u.email oldPw = false ∧
      (∀ p₂ salt₃, update_password s₂ (some r) p₂ salt₃ =
        Except.error AuthError.notFound) := by
  refine ⟨⟨pre ++
    { u with hashed_password := bhash newPw salt₂, reset_token := none } :: post⟩,
    ?_, ?_, ?_, rfl, ?_, ?_, ?_⟩
  · have hfm : findMatch (pre ++ u :: post) "email" (Value.str u.email) = some u := by
      refine findMatch_middle pre post u "email" (Value.str u.email) ?_ rfl
      intro w hw
      simp [hpre_e w hw]
    have hfind : find_user_by ⟨pre ++ u :: post⟩ [("email", Value.str u.email)] =
        Except.ok u :=
      find_user_by_single_ok _ _ _ _ rfl hfm
    simp [valid_login, hfind, hold, bcheck_bhash]
  · have hfm : findMatch (pre ++ u :: post) "email" (Value.str u.email) = some u := by
      refine findMatch_middle pre post u "email" (Value.str u.email) ?_ rfl
      intro w hw
      simp [hpre_e w hw]
    have hfind : find_user_by ⟨pre ++ u :: post⟩ [("email", Value.str u.email)] =
        Except.ok u :=
      find_user_by_single_ok _ _ _ _ rfl hfm
    have hupd : update_user ⟨pre ++ u :: post⟩ u.id [("reset_token", Value.str r)] =
        Except.ok ⟨pre ++ { u with reset_token := some r } :: post⟩ :=
      update_user_ok pre post u { u with reset_token := some r } _ hpre_id rfl
    simp [get_reset_password_token, hfind, hupd]
  · have hfm : findMatch (pre ++ { u with reset_token := some r } :: post)
        "reset_token" (Value.str r) = some { u with reset_token := some r } := by
      refine findMatch_middle pre post _ "reset_token" (Value.str r) ?_ rfl
      intro w hw
      simp [hfresh w (List.mem_append_left _ hw)]
    have hfind : find_user_by ⟨pre ++ { u with reset_token := some r } :: post⟩
        [("reset_token", Value.str r)] = Except.ok { u with reset_token := some r } :=
      find_user_by_single_ok _ _ _ _ rfl hfm
    have hupd : update_user ⟨pre ++ { u with reset_token := some r } :: post⟩ u.id
        [("hashed_password", Value.bytes (bhash newPw salt₂)),
         ("reset_token", Value.null)] =
        Except.ok ⟨pre ++
          { u with hashed_password := bhash newPw salt₂, reset_token := none } :: post⟩ :=
      update_user_ok pre post { u with reset_token := some r }
        { u with hashed_password := bhash newPw salt₂, reset_token := none } _
        hpre_id rfl
    simp [update_password, optVal, hfind, hupd]
  · have hfm : findMatch (pre ++
        { u with hashed_password := bhash newPw salt₂, reset_token := none } :: post)
        "email" (Value.str u.email) =
        some { u with hashed_password := bhash newPw salt₂, reset_token := none } := by
      refine findMatch_middle pre post _ "email" (Value.str u.email) ?_ rfl
      intro w hw
      simp [hpre_e w hw]
    have hfind : find_user_by ⟨pre ++
        { u with hashed_password := bhash newPw salt₂, reset_token := none } :: post⟩
        [("email", Value.str u.email)] =
        Except.ok { u with hashed_password := bhash newPw salt₂, reset_token := none } :=
      find_user_by_single_ok _ _ _ _ rfl hfm
    simp [valid_login, hfind, bcheck_bhash]
  · have hfm : findMatch (pre ++
        { u with hashed_password := bhash newPw salt₂, reset_token := none } :: post)
        "email" (Value.str u.email) =
        some { u with hashed_password := bhash newPw salt₂, reset_token := none } := by
      refine findMatch_middle pre post _ "email" (Value.str u.email) ?_ rfl
      intro w hw
      simp [hpre_e w hw]
    have hfind : find_user_by ⟨pre ++
        { u with hashed_password := bhash newPw salt₂, reset_token := none } :: post⟩
        [("email", Value.str u.email)] =
        Except.ok { u with hashed_password := bhash newPw salt₂, reset_token := none } :=
      find_user_by_single_ok _ _ _ _ rfl hfm
    simp [valid_login, hfind, bcheck_bhash, hne]
  · intro p₂ salt₃
    have hfm : findMatch (pre ++
        { u with hashed_password := bhash newPw salt₂, reset_token := none } :: post)
        "reset_token" (Value.str r) = none := by
      refine findMatch_none _ _ _ ?_
      intro w hw
      rcases List.mem_append.mp hw with hl | hr
      · simp [hfresh w (List.mem_append_left _ hl)]
      · rcases List.mem_cons.mp hr with rfl | hm
        · simp
        · simp [hfresh w (List.mem_append_right _ (List.mem_cons_of_mem _ hm))]
    have hfind : find_user_by ⟨pre ++
        { u with hashed_password := bhash newPw salt₂, reset_token := none } :: post⟩
        [("reset_token", Value.str r)] = Except.error DBError.noResult :=
      find_user_by_single_none _ _ _ rfl hfm
    simp [update_password, optVal, hfind]

/-- Witness for C1 at a concrete input. -/
theorem password_reset_single_use_witness :
    ∃ s₂ : DBState,
      valid_login ⟨[⟨1, "a@x.io", bhash "old" "s0", none, none⟩]⟩ "a@x.io" "old" =
        true ∧
      get_reset_password_token ⟨[⟨1, "a@x.io", bhash "old" "s0", none, none⟩]⟩
        "a@x.io" "rt1" =
        Except.ok ("rt1", ⟨[⟨1, "a@x.io", bhash "old" "s0", none, some "rt1"⟩]⟩) ∧
      update_password ⟨[⟨1, "a@x.io", bhash "old" "s0", none, some "rt1"⟩]⟩
        (some "rt1") "new" "s2" = Except.ok s₂ ∧
      s₂ = ⟨[⟨1, "a@x.io", bhash "new" "s2", none, none⟩]⟩ ∧
      valid_login s₂ "a@x.io" "new" = true ∧
      valid_login s₂ "a@x.io" "old" = false ∧
      (∀ p₂ salt₃, update_password s₂ (some "rt1") p₂ salt₃ =
        Except.error AuthError.notFound) :=
  password_reset_single_use [] [] ⟨1, "a@x.io", bhash "old" "s0", none, none⟩
    "old" "new" "rt1" "s0" "s2" (by simp) (by simp) rfl (by simp) (by decide)

/-- C6 (amended): `findBy(field, value)` signals a distinct `NotFound`
condition (never a default or null `User`) when no stored user matches a
permitted field, and signals `InvalidField` (`InvalidRequestError`) exactly
when the field is not an attribute of the `User` model — the permitted set
is the five model attributes `id, email, hashed_password, session_id,
reset_token`, not only the four the spec lists. -/
theorem find_user_by_errors :
    (∀ (s : DBState) (k : String) (v : Value), isUserAttr k = false →
      find_user_by s [(k, v)] = Except.error DBError.invalidRequest) ∧
    (∀ (s : DBState) (k : String) (v : Value), isUserAttr k = true →
      (∀ w ∈ s.users, getattrU w k ≠ v) →
      find_user_by s [(k, v)] = Except.error DBError.noResult) := by
  constructor
  · intro s k v hk
    simp [find_user_by, hk]
  · intro s k v hk hnone
    exact find_user_by_single_none s k v hk (findMatch_none _ _ _ hnone)

/-- Witness for C6 at concrete inputs. -/
theorem find_user_by_errors_witness :
    find_user_by ⟨[]⟩ [("bogus", Value.nat 0)] =
      Except.error DBError.invalidRequest ∧
    find_user_by ⟨[⟨1, "a@x.io", ['h'], none, none⟩]⟩ [("email", Value.str "b@x.io")] =
      Except.error DBError.noResult :=
  ⟨find_user_by_errors.1 ⟨[]⟩ "bogus" (Value.nat 0) rfl,
   find_user_by_errors.2 ⟨[⟨1, "a@x.io", ['h'], none, none⟩]⟩ "email"
     (Value.str "b@x.io") rfl (by simp)⟩

/-- Counterexample to C6 as stated: `hashed_password` is not among the four
attributes the claim permits, yet `findBy("hashed_password", v)` does not
signal `InvalidField` — the membership test is against all five `User` model
attributes, so the lookup proceeds and reports `NotFound` instead. -/
theorem find_user_by_fifth_attr_cex :
    ¬ (find_user_by ⟨[]⟩ [("hashed_password", Value.bytes [])] =
      Except.error DBError.invalidRequest) ∧
    "hashed_password" ∉ (["id", "email", "session_id", "reset_token"] : List String) := by
  constructor
  · intro h
    have h' : (Except.error DBError.noResult : Except DBError User) =
        Except.error DBError.invalidRequest := h
    simp at h'
  · decide

/-- The update loop of `DB.update_user` accepts any value whose shape matches
the column it is written to; this predicate singles out those well-typed
pairs (the only writes the service performs). -/
def wellTypedKV (k : String) (v : Value) : Bool :=
  if k = "id" then (match v with | Value.nat _ => true | _ => false)
  else if k = "email" then (match v with | Value.str _ => true | _ => false)
  else if k = "hashed_password" then
    (match v with | Value.bytes _ => true | _ => false)
  else if k = "session_id" then
    (match v with | Value.str _ => true | Value.null => true | _ => false)
  else if k = "reset_token" then
    (match v with | Value.str _ => true | Value.null => true | _ => false)
  else false

theorem isUserAttr_cases (k : String) (h : isUserAttr k = true) :
    k = "id" ∨ k = "email" ∨ k = "hashed_password" ∨ k = "session_id" ∨
      k = "reset_token" := by
  simp [isUserAttr] at h
  tauto

theorem isUserAttr_false (k : String) (h : isUserAttr k = false) :
    k ≠ "id" ∧ k ≠ "email" ∧ k ≠ "hashed_password" ∧ k ≠ "session_id" ∧
      k ≠ "reset_token" := by
  simp [isUserAttr] at h
  tauto

theorem wellTyped_isAttr (k : String) (v : Value) (h : wellTypedKV k v = true) :
    isUserAttr k = true := by
  unfold wellTypedKV at h
  split_ifs at h with h1 h2 h3 h4 h5
  · subst h1; rfl
  · subst h2; rfl
  · subst h3; rfl
  · subst h4; rfl
  · subst h5; rfl

theorem setattr_invalid (u : User) (k : String) (v : Value)
    (h : isUserAttr k = false) : setattrU u k v = u := by
  obtain ⟨n1, n2, n3, n4, n5⟩ := isUserAttr_false k h
  simp [setattrU, n1, n2, n3, n4, n5]

theorem setattr_id_of_ne (u : User) (k : String) (v : Value) (h : k ≠ "id") :
    (setattrU u k v).id = u.id := by
  by_cases hk : isUserAttr k = true
  · rcases isUserAttr_cases k hk with rfl | rfl | rfl | rfl | rfl
    · exact absurd rfl h
    · cases v <;> rfl
    · cases v <;> rfl
    · cases v <;> rfl
    · cases v <;> rfl
  · rw [setattr_invalid u k v (Bool.not_eq_true _ ▸ hk)]

theorem setattr_email_of_ne (u : User) (k : String) (v : Value) (h : k ≠ "email") :
    (setattrU u k v).email = u.email := by
  by_cases hk : isUserAttr k = true
  · rcases isUserAttr_cases k hk with rfl | rfl | rfl | rfl | rfl
    · cases v <;> rfl
    · exact absurd rfl h
    · cases v <;> rfl
    · cases v <;> rfl
    · cases v <;> rfl
  · rw [setattr_invalid u k v (Bool.not_eq_true _ ▸ hk)]

theorem setattr_hp_of_ne (u : User) (k : String) (v : Value)
    (h : k ≠ "hashed_password") :
    (setattrU u k v).hashed_password = u.hashed_password := by
  by_cases hk : isUserAttr k = true
  · rcases isUserAttr_cases k hk with rfl | rfl | rfl | rfl | rfl
    · cases v <;> rfl
    · cases v <;> rfl
    · exact absurd rfl h
    · cases v <;> rfl
    · cases v <;> rfl
  · rw [setattr_invalid u k v (Bool.not_eq_true _ ▸ hk)]

theorem setattr_session_of_ne (u : User) (k : String) (v : Value)
    (h : k ≠ "session_id") : (setattrU u k v).session_id = u.session_id := by
  by_cases hk : isUserAttr k = true
  · rcases isUserAttr_cases k hk with rfl | rfl | rfl | rfl | rfl
    · cases v <;> rfl
    · cases v <;> rfl
    · cases v <;> rfl
    · exact absurd rfl h
    · cases v <;> rfl
  · rw [setattr_invalid u k v (Bool.not_eq_true _ ▸ hk)]

theorem setattr_reset_of_ne (u : User) (k : String) (v : Value)
    (h : k ≠ "reset_token") : (setattrU u k v).reset_token = u.reset_token := by
  by_cases hk : isUserAttr k = true
  · rcases isUserAttr_cases k hk with rfl | rfl | rfl | rfl | rfl
    · cases v <;> rfl
    · cases v <;> rfl
    · cases v <;> rfl
    · cases v <;> rfl
    · exact absurd rfl h
  · rw [setattr_invalid u k v (Bool.not_eq_true _ ▸ hk)]

theorem getattr_setattr_other (u : User) (k k' : String) (v : Value)
    (hkk : k ≠ k') (hk' : isUserAttr k' = true) :
    getattrU (setattrU u k v) k' = getattrU u k' := by
  rcases isUserAttr_cases k' hk' with rfl | rfl | rfl | rfl | rfl
  · simp [setattr_id_of_ne u k v hkk]
  · simp [setattr_email_of_ne u k v hkk]
  · simp [setattr_hp_of_ne u k v hkk]
  · simp [setattr_session_of_ne u k v hkk]
  · simp [setattr_reset_of_ne u k v hkk]

theorem getattr_setattr_same (u : User) (k : String) (v : Value)
    (hwt : wellTypedKV k v = true) : getattrU (setattrU u k v) k = v := by
  unfold wellTypedKV at hwt
  split_ifs at hwt with h1 h2 h3 h4 h5
  · subst h1; cases v <;> first | rfl | simp at hwt
  · subst h2; cases v <;> first | rfl | simp at hwt
  · subst h3; cases v <;> first | rfl | simp at hwt
  · subst h4; cases v <;> first | rfl | simp at hwt
  · subst h5; cases v <;> first | rfl | simp at hwt

theorem applyKwargs_ok (kw : List (String × Value)) (u : User)
    (hv : ∀ kv ∈ kw, isUserAttr kv.1 = true) :
    ∃ u', applyKwargs u kw = Except.ok u' := by
  induction kw generalizing u with
  | nil => exact ⟨u, rfl⟩
  | cons kv rest ih =>
    obtain ⟨k, v⟩ := kv
    have hk : isUserAttr k = true := hv (k, v) (List.mem_cons_self _ _)
    obtain ⟨u', hu'⟩ := ih (setattrU u k v)
      (fun x hx => hv x (List.mem_cons_of_mem _ hx))
    exact ⟨u', by simp [applyKwargs, hk, hu']⟩

theorem applyKwargs_preserve (kw : List (String × Value)) (u u' : User)
    (k' : String) (hk' : isUserAttr k' = true) (hnot : ∀ v, (k', v) ∉ kw)
    (h : applyKwargs u kw = Except.ok u') :
    getattrU u' k' = getattrU u k' := by
  induction kw generalizing u with
  | nil =>
    have hu : u = u' := by
      simpa [applyKwargs] using h
    rw [hu]
  | cons kv rest ih =>
    obtain ⟨k, v⟩ := kv
    by_cases hk : isUserAttr k = true
    · rw [applyKwargs, if_pos hk] at h
      have hkk : k ≠ k' := by
        rintro rfl
        exact hnot v (List.mem_cons_self _ _)
      have hrest : ∀ v', (k', v') ∉ rest := fun v' hv' =>
        hnot v' (List.mem_cons_of_mem _ hv')
      rw [ih (setattrU u k v) hrest h, getattr_setattr_other u k k' v hkk hk']
    · rw [applyKwargs, if_neg hk] at h
      exact absurd h (by simp)

theorem applyKwargs_named (kw : List (String × Value)) (u u' : User)
    (hnd : (kw.map Prod.fst).Nodup)
    (hwt : ∀ kv ∈ kw, wellTypedKV kv.1 kv.2 = true)
    (h : applyKwargs u kw = Except.ok u') :
    ∀ kv ∈ kw, getattrU u' kv.1 = kv.2 := by
  induction kw generalizing u with
  | nil =>
    intro kv hkv
    simp at hkv
  | cons kv0 rest ih =>
    obtain ⟨k, v⟩ := kv0
    have hwt0 : wellTypedKV k v = true := hwt (k, v) (List.mem_cons_self _ _)
    have hk : isUserAttr k = true := wellTyped_isAttr k v hwt0
    rw [applyKwargs, if_pos hk] at h
    intro kv hkv
    rcases List.mem_cons.mp hkv with heq | hmem
    · subst heq
      show getattrU u' k = v
      have hknotrest : ∀ v', (k, v') ∉ rest := by
        intro v' hv'
        have hmemk : k ∈ rest.map Prod.fst := List.mem_map.mpr ⟨(k, v'), hv', rfl⟩
        exact (List.nodup_cons.mp hnd).1 hmemk
      rw [applyKwargs_preserve rest (setattrU u k v) u' k hk hknotrest h,
        getattr_setattr_same u k v hwt0]
    · exact ih (setattrU u k v) ((List.nodup_cons.mp hnd).2)
        (fun x hx => hwt x (List.mem_cons_of_mem _ hx)) h kv hmem

theorem applyKwargs_invalid (kw : List (String × Value)) (u : User)
    (hbad : ∃ kv ∈ kw, isUserAttr kv.1 = false) :
    applyKwargs u kw = Except.error DBError.valueError := by
  induction kw generalizing u with
  | nil =>
    obtain ⟨kv, hm, _⟩ := hbad
    simp at hm
  | cons kv0 rest ih =>
    obtain ⟨k, v⟩ := kv0
    by_cases hk : isUserAttr k = true
    · obtain ⟨kv, hm, hf⟩ := hbad
      rcases List.mem_cons.mp hm with heq | hmem
      · subst heq
        exact absurd hk (by simp [hf])
      · simp [applyKwargs, hk, ih (setattrU u k v) ⟨kv, hmem, hf⟩]
    · simp [applyKwargs, hk]

theorem update_user_notFound (s : DBState) (i : Nat) (kw : List (String × Value))
    (h : ∀ w ∈ s.users, w.id ≠ i) :
    update_user s i kw = Except.error DBError.noResult := by
  have hfm : findMatch s.users "id" (Value.nat i) = none := by
    refine findMatch_none _ _ _ ?_
    intro w hw
    simp [h w hw]
  have hfind : find_user_by s [("id", Value.nat i)] =
      Except.error DBError.noResult :=
    find_user_by_single_none _ _ _ rfl hfm
  simp [update_user, hfind]

/-- C7 (amended): `updateFields(id, pairs)` updates exactly the named fields
of the record with that id (other fields of that record and all other
records are unchanged), fails with `NotFound` if no record has that id, and
fails with the invalid-field error (`ValueError`, always propagated) if any
supplied name is not an attribute of the `User` model — the permitted set is
the five model attributes including `id` itself, not only the four the spec
lists. -/
theorem update_user_contract :
    (∀ (pre post : List User) (u : User) (kw : List (String × Value)),
      (∀ w ∈ pre, w.id ≠ u.id) →
      (∀ kv ∈ kw, isUserAttr kv.1 = true) →
      ∃ u', update_user ⟨pre ++ u :: post⟩ u.id kw =
          Except.ok ⟨pre ++ u' :: post⟩ ∧
        (∀ k, isUserAttr k = true → (∀ v, (k, v) ∉ kw) →
          getattrU u' k = getattrU u k) ∧
        ((kw.map Prod.fst).Nodup → (∀ kv ∈ kw, wellTypedKV kv.1 kv.2 = true) →
          ∀ kv ∈ kw, getattrU u' kv.1 = kv.2)) ∧
    (∀ (s : DBState) (i : Nat) (kw : List (String × Value)),
      (∀ w ∈ s.users, w.id ≠ i) →
      update_user s i kw = Except.error DBError.noResult) ∧
    (∀ (pre post : List User) (u : User) (kw : List (String × Value)),
      (∀ w ∈ pre, w.id ≠ u.id) →
      (∃ kv ∈ kw, isUserAttr kv.1 = false) →
      update_user ⟨pre ++ u :: post⟩ u.id kw =
        Except.error DBError.valueError) := by
  refine ⟨?_, update_user_notFound, ?_⟩
  · intro pre post u kw hpre hkeys
    obtain ⟨u', hap⟩ := applyKwargs_ok kw u hkeys
    refine ⟨u', update_user_ok pre post u u' kw hpre hap, ?_, ?_⟩
    · intro k hk hnot
      exact applyKwargs_preserve kw u u' k hk hnot hap
    · intro hnd hwt
      exact applyKwargs_named kw u u' hnd hwt hap
  · intro pre post u kw hpre hbad
    have hfm : findMatch (pre ++ u :: post) "id" (Value.nat u.id) = some u := by
      refine findMatch_middle pre post u "id" (Value.nat u.id) ?_ rfl
      intro w hw
      simp [hpre w hw]
    have hfind : find_user_by ⟨pre ++ u :: post⟩ [("id", Value.nat u.id)] =
        Except.ok u :=
      find_user_by_single_ok _ _ _ _ rfl hfm
    simp [update_user, hfind, applyKwargs_invalid kw u hbad]

/-- Witness for C7 at concrete inputs. -/
theorem update_user_contract_witness :
    (∃ u', update_user ⟨[⟨1, "a@x.io", ['h'], none, none⟩]⟩ 1
        [("email", Value.str "b@x.io")] = Except.ok ⟨[u']⟩ ∧
      (∀ k, isUserAttr k = true →
        (∀ v, (k, v) ∉ [("email", Value.str "b@x.io")]) →
        getattrU u' k = getattrU ⟨1, "a@x.io", ['h'], none, none⟩ k) ∧
      (([("email", Value.str "b@x.io")].map Prod.fst).Nodup →
        (∀ kv ∈ [("email", Value.str "b@x.io")], wellTypedKV kv.1 kv.2 = true) →
        ∀ kv ∈ [("email", Value.str "b@x.io")], getattrU u' kv.1 = kv.2)) ∧
    update_user ⟨[]⟩ 9 [("email", Value.str "b@x.io")] =
      Except.error DBError.noResult ∧
    update_user ⟨[⟨1, "a@x.io", ['h'], none, none⟩]⟩ 1 [("bogus", Value.nat 0)] =
      Except.error DBError.valueError := by
  refine ⟨?_, ?_, ?_⟩
  · have h := update_user_contract.1 [] [] ⟨1, "a@x.io", ['h'], none, none⟩
      [("email", Value.str "b@x.io")] (by simp) (by decide)
    simpa using h
  · exact update_user_contract.2.1 ⟨[]⟩ 9 [("email", Value.str "b@x.io")] (by simp)
  · exact update_user_contract.2.2 [] [] ⟨1, "a@x.io", ['h'], none, none⟩
      [("bogus", Value.nat 0)] (by simp) ⟨("bogus", Value.nat 0), by simp, rfl⟩

/-- Counterexample to C7 as stated: `id` is not among the four field names
the claim permits, yet `updateFields(1, [id = 7])` does not fail with
`InvalidField` — the `hasattr` test admits every `User` model attribute, so
the call succeeds and rewrites the record's primary key. -/
theorem update_user_id_field_cex :
    update_user ⟨[⟨1, "a@x.io", ['h'], none, none⟩]⟩ 1 [("id", Value.nat 7)] =
      Except.ok ⟨[⟨7, "a@x.io", ['h'], none, none⟩]⟩ ∧
    "id" ∉ (["email", "hashed_password", "session_id", "reset_token"] :
      List String) := by
  exact ⟨rfl, by decide⟩

/-- Every stored password hash is the output of the salted bcrypt hash. -/
def GoodHash (s : DBState) : Prop :=
  ∀ u ∈ s.users, ∃ pw salt, u.hashed_password = bhash pw salt

theorem find_user_by_mem (s : DBState) (kvs : List (String × Value)) (u : User)
    (h : find_user_by s kvs = Except.ok u) : u ∈ s.users := by
  induction kvs with
  | nil => simp [find_user_by] at h
  | cons kv rest ih =>
    obtain ⟨k, v⟩ := kv
    rw [find_user_by] at h
    by_cases hk : isUserAttr k = true
    · rw [if_pos hk] at h
      cases hm : findMatch s.users k v with
      | some w =>
        rw [hm] at h
        have : w = u := by
          simpa using h
        exact this ▸ List.mem_of_find?_eq_some hm
      | none =>
        rw [hm] at h
        exact ih h
    · rw [if_neg hk] at h
      simp at h

theorem updateFirst_mem (l : List User) (i : Nat) (u' v : User)
    (h : v ∈ updateFirst l i u') : v ∈ l ∨ v = u' := by
  induction l with
  | nil => simp [updateFirst] at h
  | cons w rest ih =>
    rw [updateFirst] at h
    by_cases hw : w.id = i
    · rw [if_pos hw] at h
      rcases List.mem_cons.mp h with rfl | hm
      · exact Or.inr rfl
      · exact Or.inl (List.mem_cons_of_mem _ hm)
    · rw [if_neg hw] at h
      rcases List.mem_cons.mp h with rfl | hm
      · exact Or.inl (List.mem_cons_self _ _)
      · rcases ih hm with hl | hr
        · exact Or.inl (List.mem_cons_of_mem _ hl)
        · exact Or.inr hr

theorem setattr_hash_cases (u : User) (k : String) (v : Value) :
    (setattrU u k v).hashed_password = u.hashed_password ∨
      ∃ b, v = Value.bytes b ∧ (setattrU u k v).hashed_password = b := by
  by_cases hk : k = "hashed_password"
  · subst hk
    cases v with
    | bytes b => exact Or.inr ⟨b, rfl, rfl⟩
    | nat n => exact Or.inl rfl
    | str s => exact Or.inl rfl
    | null => exact Or.inl rfl
  · exact Or.inl (setattr_hp_of_ne u k v hk)

theorem applyKwargs_hash (kw : List (String × Value)) (u u' : User)
    (hkw : ∀ kv ∈ kw, ∀ b, kv.2 = Value.bytes b → ∃ pw salt, b = bhash pw salt)
    (h : applyKwargs u kw = Except.ok u') :
    (∃ pw salt, u'.hashed_password = bhash pw salt) ∨
      u'.hashed_password = u.hashed_password := by
  induction kw generalizing u with
  | nil =>
    have hu : u = u' := by
      simpa [applyKwargs] using h
    exact Or.inr (hu ▸ rfl)
  | cons kv rest ih =>
    obtain ⟨k, v⟩ := kv
    by_cases hk : isUserAttr k = true
    · rw [applyKwargs, if_pos hk] at h
      rcases ih (setattrU u k v)
          (fun x hx => hkw x (List.mem_cons_of_mem _ hx)) h with hl | hr
      · exact Or.inl hl
      · rcases setattr_hash_cases u k v with hs | ⟨b, hb, hset⟩
        · exact Or.inr (hr.trans hs)
        · obtain ⟨pw, salt, hbs⟩ :=
            hkw (k, v) (List.mem_cons_self _ _) b hb
          exact Or.inl ⟨pw, salt, by rw [hr, hset, hbs]⟩
    · rw [applyKwargs, if_neg hk] at h
      simp at h

theorem update_user_goodhash (s s' : DBState) (i : Nat)
    (kw : List (String × Value)) (hg : GoodHash s)
    (hkw : ∀ kv ∈ kw, ∀ b, kv.2 = Value.bytes b → ∃ pw salt, b = bhash pw salt)
    (h : update_user s i kw = Except.ok s') : GoodHash s' := by
  rw [update_user] at h
  cases hf : find_user_by s [("id", Value.nat i)] with
  | error e =>
    simp only [hf] at h
    simp at h
  | ok u =>
    simp only [hf] at h
    cases ha : applyKwargs u kw with
    | error e =>
      simp only [ha] at h
      simp at h
    | ok u'' =>
      simp only [ha] at h
      have hs' : s' = ⟨updateFirst s.users i u''⟩ := by
        have := h
        simp at this
        exact this.symm
      subst hs'
      intro v hv
      rcases updateFirst_mem s.users i u'' v hv with hl | rfl
      · exact hg v hl
      · rcases applyKwargs_hash kw u v hkw ha with hok | heq
        · exact hok
        · obtain ⟨pw, salt, hu⟩ := hg u (find_user_by_mem s _ u hf)
          exact ⟨pw, salt, heq.trans hu⟩

theorem goodhash_reachable (s : DBState) (h : Reachable s) : GoodHash s := by
  induction h with
  | init =>
    intro u hu
    simp at hu
  | register s e p salt u s' _ hstep ih =>
    rw [register_user] at hstep
    cases hf : find_user_by s [("email", Value.str e)] with
    | ok w => simp only [hf] at hstep; simp at hstep
    | error err =>
      simp only [hf] at hstep
      cases err with
      | noResult =>
        simp [add_user] at hstep
        obtain ⟨_, hs1⟩ := hstep
        subst hs1
        intro v hv
        rcases List.mem_append.mp hv with hl | hr
        · exact ih v hl
        · rcases List.mem_singleton.mp hr with rfl
          exact ⟨p, salt, rfl⟩
      | invalidRequest => simp at hstep
      | valueError => simp at hstep
  | session s e t r s' _ hstep ih =>
    rw [create_session] at hstep
    cases hf : find_user_by s [("email", Value.str e)] with
    | error err =>
      simp only [hf] at hstep
      cases err with
      | noResult =>
        have hps : none = r ∧ s = s' := by
          simpa using hstep
        exact hps.2 ▸ ih
      | invalidRequest => simp at hstep
      | valueError => simp at hstep
    | ok u =>
      simp only [hf] at hstep
      cases hu : update_user s u.id [("session_id", Value.str t)] with
      | error e2 => simp only [hu] at hstep; simp at hstep
      | ok s'' =>
        simp only [hu] at hstep
        have hs : some t = r ∧ s'' = s' := by
          simpa using hstep
        exact hs.2 ▸ update_user_goodhash s s'' u.id _ ih
          (by
            intro kv hkv b hb
            simp at hkv
            subst hkv
            cases hb) hu
  | destroy s i s' _ hstep ih =>
    rw [destroy_session] at hstep
    cases hf : find_user_by s [("id", Value.nat i)] with
    | error err =>
      simp only [hf] at hstep
      cases err with
      | noResult =>
        have hs : s = s' := by
          simpa using hstep
        exact hs ▸ ih
      | invalidRequest => simp at hstep
      | valueError => simp at hstep
    | ok u =>
      simp only [hf] at hstep
      cases hu : update_user s u.id [("session_id", Value.null)] with
      | error e2 =>
        simp only [hu] at hstep
        cases e2 with
        | noResult =>
          have hs : s = s' := by
            simpa using hstep
          exact hs ▸ ih
        | invalidRequest => simp at hstep
        | valueError => simp at hstep
      | ok s'' =>
        simp only [hu] at hstep
        have hs : s'' = s' := by
          simpa using hstep
        exact hs ▸ update_user_goodhash s s'' u.id _ ih
          (by
            intro kv hkv b hb
            simp at hkv
            subst hkv
            cases hb) hu
  | reset s e t tok s' _ hstep ih =>
    rw [get_reset_password_token] at hstep
    cases hf : find_user_by s [("email", Value.str e)] with
    | error err =>
      simp only [hf] at hstep
      cases err with
      | noResult => simp at hstep
      | invalidRequest => simp at hstep
      | valueError => simp at hstep
    | ok u =>
      simp only [hf] at hstep
      cases hu : update_user s u.id [("reset_token", Value.str t)] with
      | error e2 => simp only [hu] at hstep; simp at hstep
      | ok s'' =>
        simp only [hu] at hstep
        have hs : t = tok ∧ s'' = s' := by
          simpa using hstep
        exact hs.2 ▸ update_user_goodhash s s'' u.id _ ih
          (by
            intro kv hkv b hb
            simp at hkv
            subst hkv
            cases hb) hu
  | updatepw s rt p salt s' _ hstep ih =>
    rw [update_password] at hstep
    cases hf : find_user_by s [("reset_token", optVal rt)] with
    | error err =>
      simp only [hf] at hstep
      cases err with
      | noResult => simp at hstep
      | invalidRequest => simp at hstep
      | valueError => simp at hstep
    | ok u =>
      simp only [hf] at hstep
      cases hu : update_user s u.id
          [("hashed_password", Value.bytes (bhash p salt)),
           ("reset_token", Value.null)] with
      | error e2 => simp only [hu] at hstep; simp at hstep
      | ok s'' =>
        simp only [hu] at hstep
        have hs : s'' = s' := by
          simpa using hstep
        refine hs ▸ update_user_goodhash s s'' u.id _ ih ?_ hu
        intro kv hkv b hb
        rcases List.mem_cons.mp hkv with rfl | hm
        · refine ⟨p, salt, ?_⟩
          have : Value.bytes (bhash p salt) = Value.bytes b := hb
          injection this with hbb
          exact hbb.symm
        · rcases List.mem_singleton.mp hm with rfl
          cases hb

/-- C10: in every store state reachable through the service, every stored
user's `hashed_password` is the output of the salted bcrypt hash of some
password — never empty, never the plaintext the caller supplied — and a
password check succeeds only when the stored value is the bcrypt hash of the
checked password (the check goes through `bcrypt.checkpw`, never plaintext
equality). -/
theorem reachable_hash_invariant (s : DBState) (hr : Reachable s) :
    (∀ u ∈ s.users, ∃ pw salt, u.hashed_password = bhash pw salt ∧
      u.hashed_password ≠ [] ∧ u.hashed_password ≠ pw.data) ∧
    (∀ e p, valid_login s e p = true → ∃ u ∈ s.users, ∃ salt,
      u.hashed_password = bhash p salt) := by
  have hg := goodhash_reachable s hr
  constructor
  · intro u hu
    obtain ⟨pw, salt, hh⟩ := hg u hu
    refine ⟨pw, salt, hh, ?_, ?_⟩
    · rw [hh]
      exact bhash_ne_nil pw salt
    · rw [hh]
      exact bhash_ne_plain pw salt
  · intro e p hv
    rw [valid_login] at hv
    cases hf : find_user_by s [("email", Value.str e)] with
    | error err =>
      simp only [hf] at hv
      simp at hv
    | ok u =>
      simp only [hf] at hv
      obtain ⟨pw, salt, hh⟩ := hg u (find_user_by_mem s _ u hf)
      rw [hh, bcheck_bhash] at hv
      have hp : p = pw := by
        simpa using hv
      exact ⟨u, find_user_by_mem s _ u hf, salt, by rw [hh, hp]⟩

/-- Witness for C10 at a concrete reachable state: the store obtained by one
registration on the initial empty store. -/
theorem reachable_hash_invariant_witness :
    (∀ u ∈ (⟨[⟨1, "a@x.io", bhash "pw1" "saltA", none, none⟩]⟩ : DBState).users,
      ∃ pw salt, u.hashed_password = bhash pw salt ∧ u.hashed_password ≠ [] ∧
        u.hashed_password ≠ pw.data) ∧
    (∀ e p, valid_login ⟨[⟨1, "a@x.io", bhash "pw1" "saltA", none, none⟩]⟩ e p =
        true →
      ∃ u ∈ (⟨[⟨1, "a@x.io", bhash "pw1" "saltA", none, none⟩]⟩ : DBState).users,
        ∃ salt, u.hashed_password = bhash p salt) :=
  reachable_hash_invariant _ (Reachable.register ⟨[]⟩ "a@x.io" "pw1" "saltA"
    ⟨1, "a@x.io", bhash "pw1" "saltA", none, none⟩
    ⟨[⟨1, "a@x.io", bhash "pw1" "saltA", none, none⟩]⟩ Reachable.init rfl)
